import Mathlib

/-!
Shallow embedding of the OxideDock dock-layout core.

The geometry model follows `src/src/window.rs` (constants, `calc_dock_layout`,
the icon-placement loop in `run`) and the reservation / icon-encoding logic in
`src/src-tauri/src/lib.rs`.  `f32` arithmetic is modelled over `ℝ`; the window
dimensions (`i32` in the source) are modelled as `ℤ`.
-/

namespace OxideDock

/-! Visual constants from `src/src/window.rs` lines 49-59. -/

noncomputable section

def ICON_SIZE : ℝ := 48
def ICON_SPACING : ℝ := 10
def ICON_SLOT : ℝ := ICON_SIZE + ICON_SPACING
def BAR_PADDING_H : ℝ := 12
def BAR_PADDING_V : ℝ := 6
def BAR_HEIGHT : ℝ := ICON_SIZE + BAR_PADDING_V * 2
def BAR_BOTTOM_MARGIN : ℝ := 8
def MAX_SCALE : ℝ := 1.8
def SIGMA : ℝ := 90

/-- Model of `windows::Foundation::Numerics::Vector3`. -/
structure Vec3 where
  x : ℝ
  y : ℝ
  z : ℝ
  deriving DecidableEq

/-- Per-icon magnification scale, from the loop body of `calc_dock_layout`
(window.rs lines 410-414): `dist = |mouse_x - center_x|`,
`scale = 1 + (MAX_SCALE - 1) * exp(-(dist*dist) / (2*SIGMA*SIGMA))`. -/
def iconScale (mouse_x base : ℝ) : ℝ :=
  let center_x := base + ICON_SIZE / 2
  let dist := |mouse_x - center_x|
  1 + (MAX_SCALE - 1) * Real.exp (-(dist * dist) / (2 * SIGMA * SIGMA))

/-- The `scales` vector of `calc_dock_layout`: initialised to all `1.0`,
overwritten with `iconScale` per icon when `magnify` is set. -/
def scalesOf (base_positions : List ℝ) (mouse_x : ℝ) (magnify : Bool) : List ℝ :=
  if magnify then base_positions.map (iconScale mouse_x)
  else List.replicate base_positions.length 1

/-- The `icon_widths` vector of `calc_dock_layout`: initialised to `ICON_SIZE`,
overwritten with `scales[i] * ICON_SIZE` when `magnify` is set. -/
def iconWidthsOf (base_positions : List ℝ) (mouse_x : ℝ) (magnify : Bool) : List ℝ :=
  if magnify then (scalesOf base_positions mouse_x true).map (· * ICON_SIZE)
  else List.replicate base_positions.length ICON_SIZE

/-- Embeds `total_width` of `calc_dock_layout` (window.rs line 420): sum of icon
widths plus `(n - 1) * ICON_SPACING`, the count cast to float before the
subtraction. -/
def totalWidthOf (icon_widths : List ℝ) : ℝ :=
  icon_widths.sum + ((icon_widths.length : ℝ) - 1) * ICON_SPACING

/-- Embeds `bar_width` of `calc_dock_layout` (window.rs line 421). -/
def barWidthOf (icon_widths : List ℝ) : ℝ :=
  totalWidthOf icon_widths + BAR_PADDING_H * 2

/-- The icon-positioning loop of `calc_dock_layout` (window.rs lines 426-438):
`current_x` starts at `bar_x + BAR_PADDING_H` and advances by
`icon_widths[i] + ICON_SPACING`; each icon is bottom-anchored at
`bar_y + BAR_HEIGHT - BAR_PADDING_V - scales[i] * ICON_SIZE`. -/
def positionsLoop : List ℝ → List ℝ → ℝ → ℝ → List Vec3
  | s :: ss, w :: ws, current_x, bar_y =>
      { x := current_x
        y := bar_y + BAR_HEIGHT - BAR_PADDING_V - s * ICON_SIZE
        z := 0 } :: positionsLoop ss ws (current_x + w + ICON_SPACING) bar_y
  | _, _, _, _ => []

/-- Return value of `calc_dock_layout`:
`(scales, positions, bar_width, bar_x, bar_y)`. -/
structure DockLayout where
  scales : List ℝ
  positions : List Vec3
  bar_width : ℝ
  bar_x : ℝ
  bar_y : ℝ

/-- Embeds `calc_dock_layout` from window.rs lines 398-441. -/
def calc_dock_layout (base_positions : List ℝ) (mouse_x : ℝ)
    (win_width win_height : ℤ) (magnify : Bool) : DockLayout :=
  let scales := scalesOf base_positions mouse_x magnify
  let icon_widths := iconWidthsOf base_positions mouse_x magnify
  let bar_width := barWidthOf icon_widths
  let bar_x := ((win_width : ℝ) - bar_width) / 2
  let bar_y := (win_height : ℝ) - BAR_HEIGHT - BAR_BOTTOM_MARGIN
  { scales := scales
    positions := positionsLoop scales icon_widths (bar_x + BAR_PADDING_H) bar_y
    bar_width := bar_width
    bar_x := bar_x
    bar_y := bar_y }

/-! Basic structural lemmas about the embedding. -/

theorem scalesOf_length (bp : List ℝ) (mx : ℝ) (mag : Bool) :
    (scalesOf bp mx mag).length = bp.length := by
  cases mag <;> simp [scalesOf]

theorem iconWidthsOf_length (bp : List ℝ) (mx : ℝ) (mag : Bool) :
    (iconWidthsOf bp mx mag).length = bp.length := by
  cases mag <;> simp [iconWidthsOf, scalesOf]

theorem iconWidthsOf_eq_map (bp : List ℝ) (mx : ℝ) (mag : Bool) :
    iconWidthsOf bp mx mag = (scalesOf bp mx mag).map (· * ICON_SIZE) := by
  cases mag
  · simp [iconWidthsOf, scalesOf, List.map_replicate, one_mul]
  · simp [iconWidthsOf, scalesOf]

theorem positionsLoop_length : ∀ (ss ws : List ℝ) (cx by_ : ℝ),
    (positionsLoop ss ws cx by_).length = min ss.length ws.length
  | [], [], _, _ => by simp [positionsLoop]
  | [], _ :: _, _, _ => by simp [positionsLoop]
  | _ :: _, [], _, _ => by simp [positionsLoop]
  | _ :: ss, _ :: ws, cx, by_ => by
      simp [positionsLoop, positionsLoop_length ss ws,
        Nat.succ_min_succ]

theorem calc_positions_length (bp : List ℝ) (mx : ℝ) (w h : ℤ) (mag : Bool) :
    (calc_dock_layout bp mx w h mag).positions.length = bp.length := by
  simp [calc_dock_layout, positionsLoop_length, scalesOf_length, iconWidthsOf_length]

theorem calc_scales_def (bp : List ℝ) (mx : ℝ) (w h : ℤ) (mag : Bool) :
    (calc_dock_layout bp mx w h mag).scales = scalesOf bp mx mag := rfl

/-! Facts about the per-icon Gaussian scale. -/

theorem iconScale_eq (x b : ℝ) :
    iconScale x b = 1 + (MAX_SCALE - 1) *
      Real.exp (-((x - (b + ICON_SIZE / 2)) ^ 2) / (2 * SIGMA ^ 2)) := by
  have h1 : |x - (b + ICON_SIZE / 2)| * |x - (b + ICON_SIZE / 2)|
      = (x - (b + ICON_SIZE / 2)) ^ 2 := by
    rw [abs_mul_abs_self]; ring
  have h2 : (2 : ℝ) * SIGMA * SIGMA = 2 * SIGMA ^ 2 := by ring
  simp only [iconScale]
  rw [h1, h2]

theorem iconScale_le (x b : ℝ) : iconScale x b ≤ MAX_SCALE := by
  rw [iconScale_eq]
  have hm : (0 : ℝ) ≤ MAX_SCALE - 1 := by norm_num [MAX_SCALE]
  have ht : -((x - (b + ICON_SIZE / 2)) ^ 2) / (2 * SIGMA ^ 2) ≤ 0 := by
    apply div_nonpos_of_nonpos_of_nonneg
    · simpa using sq_nonneg (x - (b + ICON_SIZE / 2))
    · norm_num [SIGMA]
  have he := Real.exp_le_one_iff.mpr ht
  have := mul_le_mul_of_nonneg_left he hm
  have hfin : (1 : ℝ) + (MAX_SCALE - 1) * 1 = MAX_SCALE := by ring
  linarith

theorem iconScale_eq_max_iff (x b : ℝ) :
    iconScale x b = MAX_SCALE ↔ x = b + ICON_SIZE / 2 := by
  have hm : (MAX_SCALE - 1 : ℝ) ≠ 0 := by norm_num [MAX_SCALE]
  have hσ : (2 * SIGMA ^ 2 : ℝ) ≠ 0 := by norm_num [SIGMA]
  rw [iconScale_eq]
  constructor
  · intro hEq
    have h3 : (MAX_SCALE - 1) *
        Real.exp (-((x - (b + ICON_SIZE / 2)) ^ 2) / (2 * SIGMA ^ 2))
        = (MAX_SCALE - 1) * 1 := by linarith
    have h4 := (Real.exp_eq_one_iff _).mp (mul_left_cancel₀ hm h3)
    have h5 : -((x - (b + ICON_SIZE / 2)) ^ 2) = 0 :=
      (div_eq_zero_iff.mp h4).resolve_right hσ
    have h6 : x - (b + ICON_SIZE / 2) = 0 := by
      have := neg_eq_zero.mp h5
      exact pow_eq_zero_iff (two_ne_zero) |>.mp this
    linarith
  · intro hx
    rw [hx, sub_self]
    simp [Real.exp_zero]

theorem iconScale_symm (b d : ℝ) :
    iconScale (b + ICON_SIZE / 2 + d) b = iconScale (b + ICON_SIZE / 2 - d) b := by
  rw [iconScale_eq, iconScale_eq]
  have h : (b + ICON_SIZE / 2 + d - (b + ICON_SIZE / 2)) ^ 2
      = (b + ICON_SIZE / 2 - d - (b + ICON_SIZE / 2)) ^ 2 := by ring
  rw [h]

theorem calc_scales_getD (bp : List ℝ) (x : ℝ) (w h : ℤ) (i : ℕ) (hi : i < bp.length) :
    (calc_dock_layout bp x w h true).scales.getD i 1 = iconScale x (bp.getD i 0) := by
  have h1 : i < (bp.map (iconScale x)).length := by simpa using hi
  rw [calc_scales_def]
  show (scalesOf bp x true).getD i 1 = _
  simp only [scalesOf, if_pos]
  rw [List.getD_eq_getElem _ _ h1, List.getElem_map, List.getD_eq_getElem _ _ hi]

/-- C1: When magnification is enabled, icon `i` with center
`cᵢ = base_x(i) + ICON_SIZE/2` receives scale
`1 + (MAX_SCALE − 1) · exp(−(x − cᵢ)² / (2·SIGMA²))`, where `x` is the
pointer x-coordinate and `MAX_SCALE = 1.8`, `SIGMA = 90`. -/
theorem magnified_scale_formula (bp : List ℝ) (x : ℝ) (w h : ℤ) (i : ℕ)
    (hi : i < bp.length) :
    (calc_dock_layout bp x w h true).scales.getD i 1 =
      1 + (MAX_SCALE - 1) *
        Real.exp (-((x - (bp.getD i 0 + ICON_SIZE / 2)) ^ 2) / (2 * SIGMA ^ 2)) := by
  rw [calc_scales_getD bp x w h i hi, iconScale_eq]

/-- Witness for C1 at a concrete one-icon input. -/
theorem magnified_scale_formula_witness :
    (calc_dock_layout [100] 130 640 200 true).scales.getD 0 1 =
      1 + (MAX_SCALE - 1) *
        Real.exp (-((130 - (([100] : List ℝ).getD 0 0 + ICON_SIZE / 2)) ^ 2) /
          (2 * SIGMA ^ 2)) :=
  magnified_scale_formula [100] 130 640 200 0 (by simp)

/-- C5: With magnification disabled, every icon's scale is exactly 1, for a
base-position sequence of any length (including zero) and any window size. -/
theorem magnify_off_all_scales_one (bp : List ℝ) (mx : ℝ) (w h : ℤ) :
    (calc_dock_layout bp mx w h false).scales = List.replicate bp.length 1 := by
  rw [calc_scales_def]
  simp [scalesOf]

/-- C6: The magnification scale of icon `i` is bounded by `MAX_SCALE`, attains
`MAX_SCALE` exactly when the pointer x equals the icon's center, and is
symmetric about the center: pointer at `center + d` and `center − d` give
equal scales. -/
theorem scale_peak_and_symm (bp : List ℝ) (i : ℕ) (hi : i < bp.length)
    (x d : ℝ) (w h : ℤ) :
    (calc_dock_layout bp x w h true).scales.getD i 1 ≤ MAX_SCALE ∧
    ((calc_dock_layout bp x w h true).scales.getD i 1 = MAX_SCALE ↔
      x = bp.getD i 0 + ICON_SIZE / 2) ∧
    (calc_dock_layout bp (bp.getD i 0 + ICON_SIZE / 2 + d) w h true).scales.getD i 1 =
      (calc_dock_layout bp (bp.getD i 0 + ICON_SIZE / 2 - d) w h true).scales.getD i 1 := by
  refine ⟨?_, ?_, ?_⟩
  · rw [calc_scales_getD bp x w h i hi]
    exact iconScale_le x _
  · rw [calc_scales_getD bp x w h i hi]
    exact iconScale_eq_max_iff x _
  · rw [calc_scales_getD _ _ w h i hi, calc_scales_getD _ _ w h i hi]
    exact iconScale_symm _ _

/-- Witness for C6 at a concrete one-icon input. -/
theorem scale_peak_and_symm_witness :
    (calc_dock_layout [100] 7 640 200 true).scales.getD 0 1 ≤ MAX_SCALE ∧
    ((calc_dock_layout [100] 7 640 200 true).scales.getD 0 1 = MAX_SCALE ↔
      (7 : ℝ) = ([100] : List ℝ).getD 0 0 + ICON_SIZE / 2) ∧
    (calc_dock_layout [100] (([100] : List ℝ).getD 0 0 + ICON_SIZE / 2 + 5)
        640 200 true).scales.getD 0 1 =
      (calc_dock_layout [100] (([100] : List ℝ).getD 0 0 + ICON_SIZE / 2 - 5)
        640 200 true).scales.getD 0 1 :=
  scale_peak_and_symm [100] 0 (by simp) 7 5 640 200

/-- C9: With magnification disabled, the layout does not depend on the pointer
x-coordinate: any two pointer positions give identical layouts. -/
theorem magnify_off_pointer_independent (bp : List ℝ) (mx1 mx2 : ℝ) (w h : ℤ) :
    calc_dock_layout bp mx1 w h false = calc_dock_layout bp mx2 w h false := rfl

/-! Zero-icon edge case. -/

/-- C2 counterexample: for zero icons the solver's bar width does not equal
`2 · BAR_PADDING_H`: the `(n − 1) · ICON_SPACING` term evaluates to
`−ICON_SPACING`, giving `14` instead of `24`. -/
theorem zero_icons_bar_width_cex :
    (calc_dock_layout [] 0 640 200 false).bar_width ≠ 2 * BAR_PADDING_H := by
  simp only [calc_dock_layout, iconWidthsOf, scalesOf, barWidthOf, totalWidthOf]
  norm_num [BAR_PADDING_H, ICON_SPACING]

/-- C2 amended: for zero icons the bar width equals
`2·BAR_PADDING_H − ICON_SPACING` (= 14): the `(count − 1)·spacing` term
contributes `−ICON_SPACING`.  The result is still non-negative, and the solver
performs no division by the icon count. -/
theorem zero_icons_bar_width (mx : ℝ) (w h : ℤ) (mag : Bool) :
    (calc_dock_layout [] mx w h mag).bar_width = BAR_PADDING_H * 2 - ICON_SPACING ∧
    0 ≤ (calc_dock_layout [] mx w h mag).bar_width := by
  have hw : iconWidthsOf [] mx mag = [] := by
    cases mag <;> simp [iconWidthsOf, scalesOf]
  constructor
  · show barWidthOf (iconWidthsOf [] mx mag) = _
    rw [hw]
    simp [barWidthOf, totalWidthOf]
    ring
  · show (0 : ℝ) ≤ barWidthOf (iconWidthsOf [] mx mag)
    rw [hw]
    simp [barWidthOf, totalWidthOf]
    norm_num [BAR_PADDING_H, ICON_SPACING]

/-! The left-to-right packing of the position loop. -/

theorem one_le_iconScale (x b : ℝ) : 1 ≤ iconScale x b := by
  rw [iconScale_eq]
  have hm : (0 : ℝ) ≤ MAX_SCALE - 1 := by norm_num [MAX_SCALE]
  have he := (Real.exp_pos (-((x - (b + ICON_SIZE / 2)) ^ 2) / (2 * SIGMA ^ 2))).le
  nlinarith

theorem one_le_of_mem_scalesOf (bp : List ℝ) (mx : ℝ) (mag : Bool) :
    ∀ s ∈ scalesOf bp mx mag, 1 ≤ s := by
  intro s hs
  cases mag
  · simp only [scalesOf, if_neg Bool.false_ne_true] at hs
    exact le_of_eq (List.eq_of_mem_replicate hs).symm
  · simp only [scalesOf, if_pos] at hs
    obtain ⟨b, _, rfl⟩ := List.mem_map.mp hs
    exact one_le_iconScale mx b

theorem iconWidthsOf_nonneg (bp : List ℝ) (mx : ℝ) (mag : Bool) :
    ∀ w ∈ iconWidthsOf bp mx mag, 0 ≤ w := by
  intro w hw
  rw [iconWidthsOf_eq_map] at hw
  obtain ⟨s, hs, rfl⟩ := List.mem_map.mp hw
  have h1 := one_le_of_mem_scalesOf bp mx mag s hs
  have h2 : (0 : ℝ) ≤ ICON_SIZE := by norm_num [ICON_SIZE]
  nlinarith

theorem ICON_SPACING_nonneg : (0 : ℝ) ≤ ICON_SPACING := by norm_num [ICON_SPACING]

theorem positionsLoop_getD_x_ge :
    ∀ (ss ws : List ℝ) (cx by_ : ℝ), (∀ w ∈ ws, 0 ≤ w) →
      ∀ k, k < (positionsLoop ss ws cx by_).length →
        cx ≤ ((positionsLoop ss ws cx by_).getD k ⟨0, 0, 0⟩).x
  | [], [], _, _ => by intro _ k hk; simp [positionsLoop] at hk
  | [], _ :: _, _, _ => by intro _ k hk; simp [positionsLoop] at hk
  | _ :: _, [], _, _ => by intro _ k hk; simp [positionsLoop] at hk
  | s :: ss, w :: ws, cx, by_ => by
      intro hnn k hk
      match k with
      | 0 => simp [positionsLoop]
      | Nat.succ k =>
        have hw : 0 ≤ w := hnn w (List.mem_cons_self _ _)
        have hws : ∀ w' ∈ ws, 0 ≤ w' := fun w' hw' => hnn w' (List.mem_cons_of_mem _ hw')
        have hk' : k < (positionsLoop ss ws (cx + w + ICON_SPACING) by_).length := by
          simpa [positionsLoop] using hk
        have ih := positionsLoop_getD_x_ge ss ws (cx + w + ICON_SPACING) by_ hws k hk'
        have hsp := ICON_SPACING_nonneg
        calc cx ≤ cx + w + ICON_SPACING := by linarith
          _ ≤ _ := by simpa [positionsLoop, List.getD_cons_succ] using ih

theorem positionsLoop_no_overlap :
    ∀ (ss ws : List ℝ) (cx by_ : ℝ), (∀ w ∈ ws, 0 ≤ w) →
      ∀ i j, i < j → j < (positionsLoop ss ws cx by_).length →
        ((positionsLoop ss ws cx by_).getD i ⟨0, 0, 0⟩).x + ws.getD i 0 ≤
          ((positionsLoop ss ws cx by_).getD j ⟨0, 0, 0⟩).x
  | [], [], _, _ => by intro _ i j _ hj; simp [positionsLoop] at hj
  | [], _ :: _, _, _ => by intro _ i j _ hj; simp [positionsLoop] at hj
  | _ :: _, [], _, _ => by intro _ i j _ hj; simp [positionsLoop] at hj
  | s :: ss, w :: ws, cx, by_ => by
      intro hnn i j hij hj
      have hw : 0 ≤ w := hnn w (List.mem_cons_self _ _)
      have hws : ∀ w' ∈ ws, 0 ≤ w' := fun w' hw' => hnn w' (List.mem_cons_of_mem _ hw')
      have hsp := ICON_SPACING_nonneg
      match i, j with
      | 0, Nat.succ j =>
        have hj' : j < (positionsLoop ss ws (cx + w + ICON_SPACING) by_).length := by
          simpa [positionsLoop] using hj
        have hlb := positionsLoop_getD_x_ge ss ws (cx + w + ICON_SPACING) by_ hws j hj'
        simp only [positionsLoop, List.getD_cons_zero, List.getD_cons_succ]
        linarith
      | Nat.succ i, Nat.succ j =>
        have hj' : j < (positionsLoop ss ws (cx + w + ICON_SPACING) by_).length := by
          simpa [positionsLoop] using hj
        have ih := positionsLoop_no_overlap ss ws (cx + w + ICON_SPACING) by_ hws i j
          (Nat.lt_of_succ_lt_succ hij) hj'
        simpa [positionsLoop, List.getD_cons_succ] using ih

theorem getD_map_of_lt (f : ℝ → ℝ) (l : List ℝ) (i : ℕ) (h : i < l.length) (d d' : ℝ) :
    (l.map f).getD i d = f (l.getD i d') := by
  have h2 : i < (l.map f).length := by simpa using h
  rw [List.getD_eq_getElem _ _ h2, List.getD_eq_getElem _ _ h, List.getElem_map]

/-- C7: the solved layout packs icons left-to-right in index order without
overlap: for `i < j`, `x(i) + scale(i) · ICON_SIZE ≤ x(j)`. -/
theorem layout_no_overlap (bp : List ℝ) (mx : ℝ) (w h : ℤ) (mag : Bool)
    (i j : ℕ) (hij : i < j)
    (hj : j < (calc_dock_layout bp mx w h mag).positions.length) :
    ((calc_dock_layout bp mx w h mag).positions.getD i ⟨0, 0, 0⟩).x +
      ((calc_dock_layout bp mx w h mag).scales.getD i 1) * ICON_SIZE ≤
    ((calc_dock_layout bp mx w h mag).positions.getD j ⟨0, 0, 0⟩).x := by
  have hjb : j < bp.length := by rwa [calc_positions_length] at hj
  have hib : i < bp.length := lt_trans hij hjb
  have hsl : i < (scalesOf bp mx mag).length := by rwa [scalesOf_length]
  have hkey := positionsLoop_no_overlap (scalesOf bp mx mag) (iconWidthsOf bp mx mag)
    ((((w : ℝ)) - barWidthOf (iconWidthsOf bp mx mag)) / 2 + BAR_PADDING_H)
    ((h : ℝ) - BAR_HEIGHT - BAR_BOTTOM_MARGIN)
    (iconWidthsOf_nonneg bp mx mag) i j hij
    (by
      show j < (positionsLoop _ _ _ _).length
      rw [positionsLoop_length, scalesOf_length, iconWidthsOf_length, min_self]
      exact hjb)
  have hwid : (iconWidthsOf bp mx mag).getD i 0 =
      (scalesOf bp mx mag).getD i 1 * ICON_SIZE := by
    rw [iconWidthsOf_eq_map]
    exact getD_map_of_lt (· * ICON_SIZE) (scalesOf bp mx mag) i hsl 0 1
  rw [hwid] at hkey
  exact hkey

/-- Witness for C7 at a concrete two-icon input. -/
theorem layout_no_overlap_witness :
    ((calc_dock_layout [10, 70] 0 640 200 false).positions.getD 0 ⟨0, 0, 0⟩).x +
      ((calc_dock_layout [10, 70] 0 640 200 false).scales.getD 0 1) * ICON_SIZE ≤
    ((calc_dock_layout [10, 70] 0 640 200 false).positions.getD 1 ⟨0, 0, 0⟩).x :=
  layout_no_overlap [10, 70] 0 640 200 false 0 1 (by norm_num)
    (by rw [calc_positions_length]; norm_num)

/-! Initial icon placement from `run` (window.rs lines 204-362). -/

/-- Embeds `bar_total_width` from `run` (window.rs lines 211-212): computed from the
raw configured icon count, including icons whose bitmap extraction failed. -/
def initialBarTotalWidth (n_icons : ℕ) : ℝ :=
  ((n_icons : ℝ) * ICON_SLOT - ICON_SPACING) + BAR_PADDING_H * 2

/-- Embeds `icons_start_x` from `run` (window.rs lines 213-216). -/
def initialIconsStartX (n_icons : ℕ) (win_width : ℤ) : ℝ :=
  ((win_width : ℝ) - initialBarTotalWidth n_icons) / 2 + BAR_PADDING_H

/-- The icon-placement loop of `run` (window.rs lines 234-362): `current_x`
advances by `ICON_SLOT` for every configured icon, but `base_x_positions`
records a position only for icons whose bitmap extraction succeeded
(`if let Some(sys_icon) = icon_opt`). -/
def basePositionsLoop {α : Type} : List (Option α) → ℝ → List ℝ
  | [], _ => []
  | some _ :: rest, current_x =>
      current_x :: basePositionsLoop rest (current_x + ICON_SLOT)
  | none :: rest, current_x => basePositionsLoop rest (current_x + ICON_SLOT)

/-- The `base_x_positions` stored in `AppState` after startup. -/
def initialBasePositions {α : Type} (icons : List (Option α)) (win_width : ℤ) : List ℝ :=
  basePositionsLoop icons (initialIconsStartX icons.length win_width)

theorem basePositionsLoop_length {α : Type} :
    ∀ (icons : List (Option α)) (cx : ℝ),
      (basePositionsLoop icons cx).length = icons.countP (fun o => o.isSome)
  | [], _ => by simp [basePositionsLoop]
  | some a :: rest, cx => by
      simp [basePositionsLoop, basePositionsLoop_length rest, List.countP_cons]
  | none :: rest, cx => by
      simp [basePositionsLoop, basePositionsLoop_length rest, List.countP_cons]

/-- C3 counterexample: with three configured icons whose middle bitmap
extraction failed, every recomputed layout has only two icon slots, not
three — the failed icon does not occupy a layout slot in recomputations. -/
theorem failed_icon_slot_cex :
    (calc_dock_layout
        (initialBasePositions ([some 0, none, some 0] : List (Option ℕ)) 1000)
        0 1000 200 false).positions.length
      ≠ ([some 0, none, some 0] : List (Option ℕ)).length := by
  rw [calc_positions_length, initialBasePositions, basePositionsLoop_length]
  simp [List.countP_cons]

/-- C3 amended: an icon whose bitmap extraction fails keeps its horizontal
slot only in the initial placement — a failed entry advances `current_x` by a
full `ICON_SLOT`, shifting the remaining icons — but it contributes no entry
to the stored base positions, so every later layout recomputation packs
exactly the successfully-extracted icons and drops the failed icon's slot. -/
theorem failed_icon_slot_behavior {α : Type} (rest : List (Option α))
    (icons : List (Option α)) (cx : ℝ) (bp : List ℝ) (mx : ℝ) (w h : ℤ)
    (mag : Bool) :
    basePositionsLoop (none :: rest) cx = basePositionsLoop rest (cx + ICON_SLOT) ∧
    (basePositionsLoop icons cx).length = icons.countP (fun o => o.isSome) ∧
    (calc_dock_layout bp mx w h mag).positions.length = bp.length :=
  ⟨rfl, basePositionsLoop_length icons cx, calc_positions_length bp mx w h mag⟩

/-! Monotonicity of the bar width in the per-icon scales. -/

theorem sum_le_of_eq_except :
    ∀ (s1 s2 : List ℝ) (k : ℕ), s1.length = s2.length →
      (∀ i, i ≠ k → s1.get? i = s2.get? i) →
      (∀ a b, s1.get? k = some a → s2.get? k = some b → a ≤ b) →
      s1.sum ≤ s2.sum
  | [], [], _, _, _, _ => le_refl 0
  | [], b :: t2, k, hlen, _, _ => by simp at hlen
  | a :: t1, [], k, hlen, _, _ => by simp at hlen
  | a :: t1, b :: t2, 0, hlen, hagree, hk => by
      have hab : a ≤ b := hk a b rfl rfl
      have htails : t1 = t2 := by
        apply List.ext
        intro n
        have := hagree (n + 1) (Nat.succ_ne_zero n)
        simpa using this
      subst htails
      simp only [List.sum_cons]
      linarith
  | a :: t1, b :: t2, Nat.succ k, hlen, hagree, hk => by
      have hab : a = b := by
        have := hagree 0 (Nat.succ_ne_zero k).symm
        simpa using this
      have ih := sum_le_of_eq_except t1 t2 k
        (by simpa using hlen)
        (fun i hi => by
          have := hagree (i + 1) (by omega)
          simpa using this)
        (fun x y hx hy => hk x y (by simpa using hx) (by simpa using hy))
      subst hab
      simp only [List.sum_cons]
      linarith

/-- C8: the bar width computed by the solver is the function `barWidthOf` of
the scaled icon widths, and that function is monotone in each icon's scale:
two scale vectors that agree everywhere except index `k`, where the first is
at most the second, give bar widths in the same order. -/
theorem bar_width_monotone (s1 s2 : List ℝ) (k : ℕ)
    (hlen : s1.length = s2.length)
    (hagree : ∀ i, i ≠ k → s1.get? i = s2.get? i)
    (hk : ∀ a b, s1.get? k = some a → s2.get? k = some b → a ≤ b) :
    (∀ (bp : List ℝ) (mx : ℝ) (w h : ℤ) (mag : Bool),
      (calc_dock_layout bp mx w h mag).bar_width =
        barWidthOf ((calc_dock_layout bp mx w h mag).scales.map (· * ICON_SIZE))) ∧
    barWidthOf (s1.map (· * ICON_SIZE)) ≤ barWidthOf (s2.map (· * ICON_SIZE)) := by
  constructor
  · intro bp mx w h mag
    show barWidthOf (iconWidthsOf bp mx mag) = _
    rw [iconWidthsOf_eq_map, calc_scales_def]
  · have hsum : (s1.map (· * ICON_SIZE)).sum ≤ (s2.map (· * ICON_SIZE)).sum := by
      apply sum_le_of_eq_except _ _ k
      · simpa using hlen
      · intro i hi
        rw [List.get?_map, List.get?_map, hagree i hi]
      · intro a b ha hb
        rw [List.get?_map] at ha hb
        obtain ⟨a0, ha0, rfl⟩ := Option.map_eq_some'.mp ha
        obtain ⟨b0, hb0, rfl⟩ := Option.map_eq_some'.mp hb
        have h0 := hk a0 b0 ha0 hb0
        have : (0 : ℝ) ≤ ICON_SIZE := by norm_num [ICON_SIZE]
        simpa using mul_le_mul_of_nonneg_right h0 this
    simp only [barWidthOf, totalWidthOf, List.length_map, hlen]
    linarith

/-- Witness for C8 at a concrete pair of one-icon scale vectors. -/
theorem bar_width_monotone_witness :
    (∀ (bp : List ℝ) (mx : ℝ) (w h : ℤ) (mag : Bool),
      (calc_dock_layout bp mx w h mag).bar_width =
        barWidthOf ((calc_dock_layout bp mx w h mag).scales.map (· * ICON_SIZE))) ∧
    barWidthOf (([2] : List ℝ).map (· * ICON_SIZE)) ≤
      barWidthOf (([3] : List ℝ).map (· * ICON_SIZE)) :=
  bar_width_monotone [2] [3] 0 rfl
    (fun i hi => by
      match i with
      | 0 => exact absurd rfl hi
      | Nat.succ n => rfl)
    (fun a b ha hb => by
      have ha' : (2 : ℝ) = a := by simpa using ha
      have hb' : (3 : ℝ) = b := by simpa using hb
      rw [← ha', ← hb']
      norm_num)

/-! Screen-space reservation model from `src/src-tauri/src/lib.rs`. -/

/-- Reservation-relevant state of the Tauri dock: the `is_hidden` flag stored
in `AppState` and the number of live AppBar registrations held for the dock
window. -/
structure ReserveState where
  is_hidden : Bool
  live : ℕ
  deriving DecidableEq

/-- Embeds `unregister_appbar` (lib.rs lines 216-226): `ABM_REMOVE` drops any live
registration for the window. -/
def unregister_appbar (s : ReserveState) : ReserveState := { s with live := 0 }

/-- Embeds `register_appbar` (lib.rs lines 183-214): `ABM_NEW` adds a registration
when the shell accepts it; on `ABM_NEW` failure the function returns early
with nothing registered. -/
def register_appbar (success : Bool) (s : ReserveState) : ReserveState :=
  if success then { s with live := s.live + 1 } else s

/-- Embeds `update_dock_position` (lib.rs lines 135-179): when the monitor and the
window handle are available it always calls `unregister_appbar` first and
then, only when the dock is not hidden, `register_appbar`. -/
def update_dock_position (monitor_ok hwnd_ok reg_success : Bool)
    (s : ReserveState) : ReserveState :=
  if monitor_ok && hwnd_ok then
    let s1 := unregister_appbar s
    if !s.is_hidden then register_appbar reg_success s1 else s1
  else s

/-- Embeds `set_dock_hidden` (lib.rs lines 27-38): store the new flag, then call
`update_dock_position`. -/
def set_dock_hidden (monitor_ok hwnd_ok reg_success hidden : Bool)
    (s : ReserveState) : ReserveState :=
  update_dock_position monitor_ok hwnd_ok reg_success { s with is_hidden := hidden }

/-- Model of one `SHAppBarMessage` call kind. -/
inductive AbMsg where
  | abmRemove
  | abmNew
  | abmSetpos
  deriving DecidableEq

/-- The ordered `SHAppBarMessage` calls issued by one `update_dock_position`
run with monitor and window handle available: `ABM_REMOVE` first, then — only
when the dock is not hidden — `ABM_NEW` followed by `ABM_SETPOS` when the
shell accepted the registration. -/
def updateAppbarMsgs (is_hidden reg_success : Bool) : List AbMsg :=
  AbMsg.abmRemove ::
    (if is_hidden then []
     else if reg_success then [AbMsg.abmNew, AbMsg.abmSetpos] else [AbMsg.abmNew])

/-- C4: at most one reservation is live at any time — a position update first
issues `ABM_REMOVE` and preserves `live ≤ 1`; setting the hidden flag releases
the reservation and issues no `ABM_NEW`; clearing it re-registers. -/
theorem reservation_at_most_one (s : ReserveState)
    (monitor_ok hwnd_ok reg_success hidden : Bool) (hlive : s.live ≤ 1) :
    (update_dock_position monitor_ok hwnd_ok reg_success s).live ≤ 1 ∧
    (updateAppbarMsgs hidden reg_success).head? = some AbMsg.abmRemove ∧
    (monitor_ok = true → hwnd_ok = true →
      (set_dock_hidden monitor_ok hwnd_ok reg_success true s).live = 0 ∧
      (set_dock_hidden monitor_ok hwnd_ok reg_success true s).is_hidden = true ∧
      AbMsg.abmNew ∉ updateAppbarMsgs true reg_success) ∧
    (monitor_ok = true → hwnd_ok = true → reg_success = true →
      (set_dock_hidden monitor_ok hwnd_ok reg_success false s).live = 1) := by
  obtain ⟨sh, sl⟩ := s
  refine ⟨?_, rfl, ?_, ?_⟩
  · cases monitor_ok <;> cases hwnd_ok <;> cases sh <;> cases reg_success <;>
      simp_all [update_dock_position, unregister_appbar, register_appbar]
  · rintro rfl rfl
    refine ⟨?_, ?_, ?_⟩
    · simp [set_dock_hidden, update_dock_position, unregister_appbar]
    · simp [set_dock_hidden, update_dock_position, unregister_appbar]
    · simp [updateAppbarMsgs]
  · rintro rfl rfl rfl
    simp [set_dock_hidden, update_dock_position, unregister_appbar, register_appbar]

/-- Witness for C4 at a concrete state with one live reservation. -/
theorem reservation_at_most_one_witness :
    (update_dock_position true true true ⟨false, 1⟩).live ≤ 1 ∧
    (updateAppbarMsgs false true).head? = some AbMsg.abmRemove ∧
    (true = true → true = true →
      (set_dock_hidden true true true true ⟨false, 1⟩).live = 0 ∧
      (set_dock_hidden true true true true ⟨false, 1⟩).is_hidden = true ∧
      AbMsg.abmNew ∉ updateAppbarMsgs true true) ∧
    (true = true → true = true → true = true →
      (set_dock_hidden true true true false ⟨false, 1⟩).live = 1) :=
  reservation_at_most_one ⟨false, 1⟩ true true true false (by decide)

/-! Icon encoding command from `src/src-tauri/src/lib.rs`. -/

/-- Model of `get_icon_base64` (lib.rs lines 40-57).  Icon extraction, PNG
encoding and base64 encoding are external effects, modelled as function
parameters over an abstract pixel type `Img`. -/
def get_icon_base64 {Img : Type} (extract_icon : String → Option Img)
    (encode_png : Img → Option (List ℕ)) (base64 : List ℕ → String)
    (path : String) : Except String (Option String) :=
  match extract_icon path with
  | some img =>
    match encode_png img with
    | some png_bytes =>
        Except.ok (some ("data:image/png;base64," ++ base64 png_bytes))
    | none => Except.ok none
  | none => Except.ok none

/-- C10: `get_icon_base64` never returns `Err`: every run yields `Ok`, and the
result is `Ok(Some _)` exactly when both extraction and PNG encoding
succeed (otherwise it is `Ok(None)`). -/
theorem get_icon_base64_total {Img : Type} (extract_icon : String → Option Img)
    (encode_png : Img → Option (List ℕ)) (base64 : List ℕ → String)
    (path : String) :
    (∃ v, get_icon_base64 extract_icon encode_png base64 path = Except.ok v) ∧
    ((∃ str, get_icon_base64 extract_icon encode_png base64 path =
        Except.ok (some str)) ↔
      ∃ img, extract_icon path = some img ∧ (encode_png img).isSome = true) := by
  rcases hext : extract_icon path with _ | img
  · refine ⟨⟨none, by simp [get_icon_base64, hext]⟩, ?_, ?_⟩
    · rintro ⟨str, hstr⟩
      simp [get_icon_base64, hext] at hstr
    · rintro ⟨img, himg, -⟩
      exact Option.noConfusion himg
  · rcases henc : encode_png img with _ | png_bytes
    · refine ⟨⟨none, by simp [get_icon_base64, hext, henc]⟩, ?_, ?_⟩
      · rintro ⟨str, hstr⟩
        simp [get_icon_base64, hext, henc] at hstr
      · rintro ⟨img', himg', hsome⟩
        obtain rfl : img = img' := Option.some_injective _ himg'
        simp [henc] at hsome
    · refine ⟨⟨some ("data:image/png;base64," ++ base64 png_bytes),
        by simp [get_icon_base64, hext, henc]⟩, ?_, ?_⟩
      · intro _
        exact ⟨img, rfl, by simp [henc]⟩
      · intro _
        exact ⟨"data:image/png;base64," ++ base64 png_bytes,
          by simp [get_icon_base64, hext, henc]⟩

end

end OxideDock
